import Mathlib

/-!
Verification of the gcsBot-btc walk-forward optimizer core.

Shallow embedding of the algorithmic parts of the repository:
- `src/model_trainer.py` : `create_labels_triple_barrier` (triple-barrier labeler),
- `src/backtest.py` : `run_backtest` (event-driven backtest simulator),
- `src/optimizer.py` : `WalkForwardOptimizer` (`_run_backtest_for_period`,
  `_calculate_sharpe_ratio`, `_objective`, the `run` walk-forward loop),
- `src/confidence_manager.py` : `AdaptiveConfidenceManager`.

Python floats are modelled as exact rationals (`ℚ`); the only real-valued
ingredient is the square root in the Sharpe-ratio annualization, modelled with
`Real.sqrt`.  Numpy arrays are modelled as functions `ℕ → ℚ` together with an
explicit length, pandas series as `List ℚ`.
-/

namespace GcsBot

/-! ## Triple-barrier labeler (src/model_trainer.py, create_labels_triple_barrier) -/

/-- Inner scan loop of `create_labels_triple_barrier`: for `j` in
`range(1, future_periods + 1)` (here: starting index `j`, `rem` steps left),
return `some 1` when `highs[i+j] >= profit_barrier` fires first, `some 2` when
`lows[i+j] <= stop_barrier` fires first, `none` when the horizon elapses.
The profit check is evaluated before the stop check at every index, exactly as
in the source. -/
def barrierScan (highs lows : ℕ → ℚ) (profitB stopB : ℚ) (i : ℕ) : ℕ → ℕ → Option ℕ
  | _, 0 => none
  | j, rem + 1 =>
    if profitB ≤ highs (i + j) then some 1
    else if lows (i + j) ≤ stopB then some 2
    else barrierScan highs lows profitB stopB i (j + 1) rem

/-- Label assigned to index `i` by `create_labels_triple_barrier`
(src/model_trainer.py lines 30-54).  The Python loop runs `i` over
`range(n - future_periods)` starting from an all-zero label array, so an index
is processed exactly when `i + future_periods < n`; `atr[i] == 0` indices are
skipped via `continue` (label stays 0).  When no barrier is touched within the
horizon the source assigns `1 if closes[i + future_periods] > closes[i] else 2`. -/
def create_labels_triple_barrier (closes highs lows atr : ℕ → ℚ)
    (n future_periods : ℕ) (profit_multiplier stop_multiplier : ℚ) (i : ℕ) : ℕ :=
  if i + future_periods < n then
    if atr i = 0 then 0
    else
      match barrierScan highs lows (closes i + atr i * profit_multiplier)
          (closes i - atr i * stop_multiplier) i 1 future_periods with
      | some l => l
      | none => if closes i < closes (i + future_periods) then 1 else 2
  else 0

/-! ## Lemmas about the barrier scan -/

theorem barrierScan_first_touch (highs lows : ℕ → ℚ) (pb sb : ℚ) (i j0 : ℕ)
    (htouch : pb ≤ highs (i + j0) ∨ lows (i + j0) ≤ sb) :
    ∀ rem j, j ≤ j0 → j0 < j + rem →
      (∀ j2, j ≤ j2 → j2 < j0 → ¬ pb ≤ highs (i + j2) ∧ ¬ lows (i + j2) ≤ sb) →
      barrierScan highs lows pb sb i j rem =
        some (if pb ≤ highs (i + j0) then 1 else 2) := by
  intro rem
  induction rem with
  | zero => intro j hle hlt _; omega
  | succ rem ih =>
    intro j hle hlt hfirst
    rcases Nat.eq_or_lt_of_le hle with heq | hltj
    · subst heq
      by_cases hh : pb ≤ highs (i + j)
      · simp [barrierScan, hh]
      · have hl : lows (i + j) ≤ sb := htouch.resolve_left hh
        simp [barrierScan, hh, hl]
    · have hno := hfirst j le_rfl hltj
      rw [barrierScan, if_neg hno.1, if_neg hno.2]
      exact ih (j + 1) hltj (by omega) (fun j2 ha hb => hfirst j2 (by omega) hb)

theorem barrierScan_none (highs lows : ℕ → ℚ) (pb sb : ℚ) (i : ℕ) :
    ∀ rem j, (∀ j2, j ≤ j2 → j2 < j + rem → ¬ pb ≤ highs (i + j2) ∧ ¬ lows (i + j2) ≤ sb) →
      barrierScan highs lows pb sb i j rem = none := by
  intro rem
  induction rem with
  | zero => intro j _; rfl
  | succ rem ih =>
    intro j hno
    have h := hno j le_rfl (by omega)
    rw [barrierScan, if_neg h.1, if_neg h.2]
    exact ih (j + 1) (fun j2 ha hb => hno j2 (by omega) (by omega))

/-! ## Claim theorems for the labeler -/

/-- C1: triple-barrier first-touch correctness.  For an in-range index `i`
with nonzero volatility, if `j0` is the first index of the scanned window
`i+1 .. i+h` at which either barrier is touched, then the label is Upside (1)
when the high touches the upper barrier there (the profit check is scanned
first), and Downside (2) when only the low touches the lower barrier. -/
theorem triple_barrier_first_touch_correct
    (closes highs lows atr : ℕ → ℚ) (n h : ℕ) (pm sm : ℚ) (i j0 : ℕ)
    (hin : i + h < n) (hatr : atr i ≠ 0) (hj1 : 1 ≤ j0) (hjh : j0 ≤ h)
    (htouch : closes i + atr i * pm ≤ highs (i + j0) ∨
      lows (i + j0) ≤ closes i - atr i * sm)
    (hfirst : ∀ j2, 1 ≤ j2 → j2 < j0 →
      ¬ closes i + atr i * pm ≤ highs (i + j2) ∧
      ¬ lows (i + j2) ≤ closes i - atr i * sm) :
    create_labels_triple_barrier closes highs lows atr n h pm sm i =
      if closes i + atr i * pm ≤ highs (i + j0) then 1 else 2 := by
  have hscan := barrierScan_first_touch highs lows
    (closes i + atr i * pm) (closes i - atr i * sm) i j0 htouch h 1 hj1 (by omega) hfirst
  unfold create_labels_triple_barrier
  rw [if_pos hin, if_neg hatr, hscan]

/-- Witness for C1: a window whose bar `i+1` is the first to exceed the upper
barrier receives label Upside (1). -/
theorem triple_barrier_first_touch_witness :
    create_labels_triple_barrier (fun _ => 100) (fun k => if k = 1 then 102 else 100)
      (fun _ => 100) (fun _ => 1) 2 1 1 1 0 = 1 := by
  have h := triple_barrier_first_touch_correct (fun _ => 100)
    (fun k => if k = 1 then 102 else 100) (fun _ => 100) (fun _ => 1) 2 1 1 1 0 1
    (by omega) (by norm_num) le_rfl le_rfl (by norm_num)
    (fun j2 ha hb => absurd (Nat.lt_of_le_of_lt ha hb) (by omega))
  rw [h, if_pos (by norm_num)]

/-- Counterexample for C2: on a flat price path (no barrier touched within the
horizon) the labeler assigns Downside (2), not Neutral (0): the horizon-timeout
branch labels by the sign of the net price change, and a flat path falls into
the `else 2` arm. -/
theorem flat_path_neutral_counterexample :
    ¬ ((100 : ℚ) + 1 * 1 ≤ 100) ∧ ¬ ((100 : ℚ) ≤ 100 - 1 * 1) ∧
    create_labels_triple_barrier (fun _ => 100) (fun _ => 100) (fun _ => 100) (fun _ => 1)
      2 1 1 1 0 = 2 ∧
    create_labels_triple_barrier (fun _ => 100) (fun _ => 100) (fun _ => 100) (fun _ => 1)
      2 1 1 1 0 ≠ 0 := by
  refine ⟨by norm_num, by norm_num, ?_, ?_⟩ <;>
    norm_num [create_labels_triple_barrier, barrierScan]

/-- C2 amended: horizon-timeout policy actually implemented.  For an in-range
index with nonzero volatility, if neither barrier is touched anywhere in the
scanned window `i+1 .. i+h`, the label is 1 when `closes[i+h] > closes[i]` and
2 otherwise (sign-of-net-change policy); in particular a flat path gets 2. -/
theorem triple_barrier_timeout_sign_policy
    (closes highs lows atr : ℕ → ℚ) (n h : ℕ) (pm sm : ℚ) (i : ℕ)
    (hin : i + h < n) (hatr : atr i ≠ 0)
    (hno : ∀ j, 1 ≤ j → j ≤ h →
      ¬ closes i + atr i * pm ≤ highs (i + j) ∧
      ¬ lows (i + j) ≤ closes i - atr i * sm) :
    create_labels_triple_barrier closes highs lows atr n h pm sm i =
      if closes i < closes (i + h) then 1 else 2 := by
  have hscan := barrierScan_none highs lows
    (closes i + atr i * pm) (closes i - atr i * sm) i h 1
    (fun j2 ha hb => hno j2 ha (by omega))
  unfold create_labels_triple_barrier
  rw [if_pos hin, if_neg hatr, hscan]

/-- Witness for the amended C2: a flat path with no barrier touch gets label 2. -/
theorem triple_barrier_timeout_sign_witness :
    create_labels_triple_barrier (fun _ => 100) (fun _ => 100) (fun _ => 100) (fun _ => 1)
      2 1 1 1 0 = 2 := by
  have h := triple_barrier_timeout_sign_policy (fun _ => 100) (fun _ => 100)
    (fun _ => 100) (fun _ => 1) 2 1 1 1 0 (by omega) (by norm_num)
    (fun j _ _ => by norm_num)
  rw [h, if_neg (by norm_num)]

/-- C7: labeler exclusion edge.  Any index within `h` of the end of the arrays
(`n ≤ i + h`), or whose volatility is zero, keeps label 0: such positions are
excluded by construction (the zero-initialized array is never written there). -/
theorem triple_barrier_edge_exclusion
    (closes highs lows atr : ℕ → ℚ) (n h : ℕ) (pm sm : ℚ) (i : ℕ)
    (hcond : n ≤ i + h ∨ atr i = 0) :
    create_labels_triple_barrier closes highs lows atr n h pm sm i = 0 := by
  unfold create_labels_triple_barrier
  rcases hcond with hc | hc
  · rw [if_neg (by omega)]
  · by_cases hin : i + h < n
    · rw [if_pos hin, if_pos hc]
    · rw [if_neg hin]

/-- Witness for C7: the last index of a 2-bar series with horizon 1 keeps label 0,
and so does an in-range index with zero volatility. -/
theorem triple_barrier_edge_witness :
    create_labels_triple_barrier (fun _ => 100) (fun _ => 100) (fun _ => 100) (fun _ => 1)
      2 1 1 1 1 = 0 ∧
    create_labels_triple_barrier (fun _ => 100) (fun _ => 100) (fun _ => 100) (fun _ => 0)
      2 1 1 1 0 = 0 :=
  ⟨triple_barrier_edge_exclusion _ _ _ _ 2 1 1 1 1 (Or.inl (by omega)),
   triple_barrier_edge_exclusion _ _ _ _ 2 1 1 1 0 (Or.inr rfl)⟩

/-! ## Adaptive confidence manager (src/confidence_manager.py) -/

/-- State of `AdaptiveConfidenceManager` (src/confidence_manager.py lines 11-26). -/
structure AdaptiveConfidenceManager where
  initial_confidence : ℚ
  current_confidence : ℚ
  learning_rate : ℚ
  min_confidence : ℚ
  max_confidence : ℚ
  trade_count : ℕ
  deriving DecidableEq

/-- Constructor mirroring `AdaptiveConfidenceManager.__init__`: the current
confidence is seeded with `initial_confidence` without any clamping. -/
def mkAdaptiveConfidenceManager
    (initial_confidence learning_rate min_confidence max_confidence : ℚ) :
    AdaptiveConfidenceManager :=
  ⟨initial_confidence, initial_confidence, learning_rate, min_confidence, max_confidence, 0⟩

/-- Model of `np.clip(x, lo, hi)`: `lo` when `x < lo`, `hi` when `x > hi`
(returning `hi` when the bounds are crossed, as numpy does). -/
def npClip (x lo hi : ℚ) : ℚ := min (max x lo) hi

/-- `AdaptiveConfidenceManager.update` (src/confidence_manager.py lines 28-47):
clamp the trade PnL to ±2%, move the threshold by `-learning_rate * clamped`,
re-clamp into `[min_confidence, max_confidence]`, bump the trade counter. -/
def AdaptiveConfidenceManager.update (m : AdaptiveConfidenceManager)
    (pnl_percent : ℚ) : AdaptiveConfidenceManager :=
  let clamped_pnl := npClip pnl_percent (-(2/100)) (2/100)
  let adjustment := m.learning_rate * clamped_pnl
  let new_confidence := m.current_confidence - adjustment
  { m with trade_count := m.trade_count + 1,
           current_confidence := npClip new_confidence m.min_confidence m.max_confidence }

/-- `AdaptiveConfidenceManager.get_confidence`: returns the current threshold. -/
def AdaptiveConfidenceManager.get_confidence (m : AdaptiveConfidenceManager) : ℚ :=
  m.current_confidence

/-! ## Lemmas about the confidence manager -/

theorem update_mem_bounds (m : AdaptiveConfidenceManager) (x : ℚ)
    (hmm : m.min_confidence ≤ m.max_confidence) :
    m.min_confidence ≤ (m.update x).current_confidence ∧
    (m.update x).current_confidence ≤ m.max_confidence := by
  refine ⟨le_min (le_max_right _ _) hmm, min_le_right _ _⟩

theorem foldl_update_bounds (pnls : List ℚ) : ∀ m : AdaptiveConfidenceManager,
    m.min_confidence ≤ m.max_confidence →
    m.min_confidence ≤ m.current_confidence →
    m.current_confidence ≤ m.max_confidence →
    m.min_confidence ≤ (pnls.foldl AdaptiveConfidenceManager.update m).current_confidence ∧
    (pnls.foldl AdaptiveConfidenceManager.update m).current_confidence ≤ m.max_confidence := by
  induction pnls with
  | nil => intro m _ h1 h2; exact ⟨h1, h2⟩
  | cons x xs ih =>
    intro m hmm h1 h2
    have hu := update_mem_bounds m x hmm
    exact ih (m.update x) hmm hu.1 hu.2

/-! ## Claim theorems for the confidence manager -/

/-- C5: adaptive confidence controller bounds.  For every manager state with
consistent bounds and every nonempty sequence of `update` calls with arbitrary
rational trade returns, the threshold held after the updates lies within
`[min_confidence, max_confidence]` (instantiating the sequence at every prefix
gives the bound after each individual update call). -/
theorem adaptive_confidence_threshold_bounded (m : AdaptiveConfidenceManager)
    (pnls : List ℚ) (hmm : m.min_confidence ≤ m.max_confidence) (hne : pnls ≠ []) :
    m.min_confidence ≤ (pnls.foldl AdaptiveConfidenceManager.update m).current_confidence ∧
    (pnls.foldl AdaptiveConfidenceManager.update m).current_confidence ≤ m.max_confidence := by
  match pnls, hne with
  | x :: xs, _ =>
    have hu := update_mem_bounds m x hmm
    exact foldl_update_bounds xs (m.update x) hmm hu.1 hu.2

/-- Witness for C5: the default-bounds manager seeded at 0.70 stays within
[0.505, 0.85] after a large winning trade followed by a large losing trade. -/
theorem adaptive_confidence_bounded_witness :
    (101/200 : ℚ) ≤ (([1/10, -1/10] : List ℚ).foldl AdaptiveConfidenceManager.update
      (mkAdaptiveConfidenceManager (7/10) (1/20) (101/200) (17/20))).current_confidence ∧
    (([1/10, -1/10] : List ℚ).foldl AdaptiveConfidenceManager.update
      (mkAdaptiveConfidenceManager (7/10) (1/20) (101/200) (17/20))).current_confidence ≤ 17/20 :=
  adaptive_confidence_threshold_bounded
    (mkAdaptiveConfidenceManager (7/10) (1/20) (101/200) (17/20))
    [1/10, -1/10] (by norm_num [mkAdaptiveConfidenceManager]) (by simp)

/-- C10: the initial threshold is not clamped.  `get_confidence` returns exactly
the seeded `initial_confidence` before any `update` call, and when that seed is
above `max_confidence` the reported threshold is out of bounds. -/
theorem initial_confidence_unclamped (ic lr mn mx : ℚ) :
    (mkAdaptiveConfidenceManager ic lr mn mx).get_confidence = ic ∧
    (mx < ic → mx < (mkAdaptiveConfidenceManager ic lr mn mx).get_confidence) :=
  ⟨rfl, fun h => h⟩

/-- Witness for C10: a manager seeded at 0.95 with max bound 0.85 reports 0.95. -/
theorem initial_confidence_unclamped_witness :
    (mkAdaptiveConfidenceManager (19/20) (1/20) (101/200) (17/20)).get_confidence = 19/20 ∧
    (17/20 : ℚ) < (mkAdaptiveConfidenceManager (19/20) (1/20) (101/200) (17/20)).get_confidence :=
  ⟨(initial_confidence_unclamped (19/20) (1/20) (101/200) (17/20)).1,
   (initial_confidence_unclamped (19/20) (1/20) (101/200) (17/20)).2 (by norm_num)⟩

/-! ## Walk-forward driver loop (src/optimizer.py, WalkForwardOptimizer.run) -/

/-- Number of WFO cycles executed by the
`while start_index + train_size + test_size <= n_total` loop of
`WalkForwardOptimizer.run` from offset `start`, with no shutdown requested:
every non-interrupted path through the loop body (successful cycle, skipped
non-positive best trial, failed final training) ends with
`start_index += step_size` and re-tests the condition.  The Python loop never
terminates when `step_size = 0`, so the recursion is additionally guarded on
`0 < step_size` to be total; all theorems assume a positive step. -/
def wfoCycles (n_total train_size test_size step_size : ℕ) (start : ℕ) : ℕ :=
  if h : start + train_size + test_size ≤ n_total ∧ 0 < step_size then
    1 + wfoCycles n_total train_size test_size step_size (start + step_size)
  else 0
termination_by n_total + 1 - start
decreasing_by omega

/-- Entry of `run` for a fresh start (no checkpoint): with fewer than
`train_size + test_size` bars the driver fails fast before the loop;
otherwise the loop starts at `start_index = 0`. -/
def wfoRun (n_total train_size test_size step_size : ℕ) : ℕ :=
  if n_total < train_size + test_size then 0
  else wfoCycles n_total train_size test_size step_size 0

/-- C9: driver termination on minimal data.  On a dataset of exactly
`train_size + test_size` bars with a positive step and no shutdown signal, the
walk-forward driver executes exactly one (train, test) cycle and then leaves
its loop instead of starting a second cycle. -/
theorem wfo_single_cycle (train_size test_size step_size : ℕ) (hstep : 0 < step_size) :
    wfoRun (train_size + test_size) train_size test_size step_size = 1 := by
  unfold wfoRun
  rw [if_neg (by omega), wfoCycles, dif_pos ⟨by omega, hstep⟩,
    wfoCycles, dif_neg (by omega)]

/-- Witness for C9: with the default configuration (43200 training minutes,
20160 test minutes, 20160 step minutes) and a dataset of exactly 63360 bars,
exactly one cycle runs. -/
theorem wfo_single_cycle_witness :
    wfoRun (43200 + 20160) 43200 20160 20160 = 1 :=
  wfo_single_cycle 43200 20160 20160 (by norm_num)

/-! ## Backtest simulator (src/backtest.py, run_backtest) -/

/-- Brokerage fee per operation (src/backtest.py line 9). -/
def FEE_RATE : ℚ := 1/1000

/-- Simulated execution slippage (src/backtest.py line 10). -/
def SLIPPAGE_RATE : ℚ := 1/2000

/-- Strategy sub-group of a hyperparameter set as consumed by the simulators. -/
structure StrategyParams where
  profit_threshold : ℚ
  stop_loss_threshold : ℚ
  prediction_confidence : ℚ
  risk_per_trade_pct : ℚ
  deriving DecidableEq

/-- Portfolio simulation state of `run_backtest` (lines 18-24). -/
structure BTState where
  capital : ℚ
  btcAmount : ℚ
  inPosition : Bool
  buyPrice : ℚ
  tradeCount : ℕ
  portfolioValues : List ℚ
  deriving DecidableEq

def initBTState : BTState := ⟨100, 0, false, 0, 0, []⟩

/-- Proceeds of selling `btc` at market `price`: the execution price is reduced
by `SLIPPAGE_RATE`, then the proportional `FEE_RATE` is taken from the
proceeds.  The source repeats this formula verbatim at the take-profit or
stop-loss exit (lines 59-61) and at the final forced liquidation (lines 93-94). -/
def sellProceeds (btc price : ℚ) : ℚ :=
  btc * (price * (1 - SLIPPAGE_RATE)) * (1 - FEE_RATE)

/-- One bar of the `run_backtest` loop (lines 46-88).  A bar carries
`(close price, buy-class probability)`; `predictions_buy_proba.get(date, 0)`
is modelled by the probability component itself.  The per-bar portfolio value
is appended before the exit and entry logic, as in the source (lines 48-49). -/
def btStep (p : StrategyParams) (s : BTState) (bar : ℚ × ℚ) : BTState :=
  let price := bar.1
  let proba := bar.2
  let s0 := { s with portfolioValues := s.portfolioValues ++ [s.capital + s.btcAmount * price] }
  if s0.inPosition then
    let profit_loss_pct := if 0 < s0.buyPrice then price / s0.buyPrice - 1 else 0
    if p.profit_threshold ≤ profit_loss_pct ∨ profit_loss_pct ≤ -p.stop_loss_threshold then
      { s0 with capital := s0.capital + sellProceeds s0.btcAmount price,
                btcAmount := 0, inPosition := false, tradeCount := s0.tradeCount + 1 }
    else s0
  else if p.prediction_confidence < proba then
    let conviction := proba
    let signal_strength := (conviction - p.prediction_confidence) / (1 - p.prediction_confidence)
    let dynamic_risk_pct := p.risk_per_trade_pct * (1/2 + signal_strength)
    let trade_size_usdt := s0.capital * dynamic_risk_pct
    if 10 < s0.capital ∧ 10 < trade_size_usdt then
      let buy_price_with_slippage := price * (1 + SLIPPAGE_RATE)
      { s0 with btcAmount := trade_size_usdt / buy_price_with_slippage,
                capital := s0.capital - (trade_size_usdt + trade_size_usdt * FEE_RATE),
                buyPrice := buy_price_with_slippage, inPosition := true,
                tradeCount := s0.tradeCount + 1 }
    else s0
  else s0

/-- Last close of the bar series (`closes.iloc[-1]`), 0 on an empty series
(where the source would raise; the claims only use nonempty series). -/
def lastClose (bars : List (ℚ × ℚ)) : ℚ := ((bars.map Prod.fst).getLast?).getD 0

/-- Forced liquidation after the bar loop (lines 91-94): if still in position,
sell the whole holding at the last close with the same sell-side cost model. -/
def liquidateFinal (bars : List (ℚ × ℚ)) (s : BTState) : ℚ :=
  if s.inPosition then s.capital + sellProceeds s.btcAmount (lastClose bars)
  else s.capital

/-- Ending capital returned by `run_backtest`. -/
def run_backtest_capital (p : StrategyParams) (bars : List (ℚ × ℚ)) : ℚ :=
  liquidateFinal bars (bars.foldl (btStep p) initBTState)

/-- Percentage change of a series followed by `dropna()`, as in
`portfolio_df['value'].pct_change().dropna()`: one entry `b / a - 1` per
adjacent pair (the first row's NaN is dropped). -/
def pctChange : List ℚ → List ℚ
  | a :: b :: rest => (b / a - 1) :: pctChange (b :: rest)
  | _ => []

/-- Mean of a series (`returns.mean()`). -/
def rmean (l : List ℚ) : ℚ := l.sum / l.length

/-- Sample variance with `ddof = 1`, the pandas default underlying `.std()`. -/
def sampleVar (l : List ℚ) : ℚ :=
  ((l.map fun x => (x - rmean l) ^ 2).sum) / ((l.length : ℚ) - 1)

/-- Sample standard deviation as pandas `.std()`: the square root of the
`ddof = 1` sample variance. -/
noncomputable def sampleStd (l : List ℚ) : ℝ := Real.sqrt ((sampleVar l : ℚ) : ℝ)

/-- Sharpe computation of `run_backtest` (lines 110-115): 0 when the return
series has fewer than 2 points or zero variance, else
`mean/std * sqrt(365*24*60)`.  The Python guard `std == 0 or len < 2` agrees:
for `len < 2` the `ddof=1` std is NaN and `NaN == 0` is false, so the length
test decides; for `len >= 2` the std is the square root of the sample variance
and vanishes exactly when the variance does (`sampleStd_eq_zero_iff`). -/
noncomputable def sharpeOfReturns (returns : List ℚ) : ℝ :=
  if returns.length < 2 ∨ sampleVar returns = 0 then 0
  else ((rmean returns : ℚ) : ℝ) / sampleStd returns * Real.sqrt (365 * 24 * 60)

/-- Pair returned by `run_backtest`: ending capital and annualized Sharpe
(`-1.0` when the portfolio-value series is empty, i.e. the bar series is empty). -/
noncomputable def run_backtest (p : StrategyParams) (bars : List (ℚ × ℚ)) : ℚ × ℝ :=
  let s := bars.foldl (btStep p) initBTState
  (run_backtest_capital p bars,
   if s.portfolioValues = [] then -1 else sharpeOfReturns (pctChange s.portfolioValues))

/-- Per-bar percentage returns of the portfolio-value series produced by a
`run_backtest` simulation run. -/
def portfolioReturns (p : StrategyParams) (bars : List (ℚ × ℚ)) : List ℚ :=
  pctChange ((bars.foldl (btStep p) initBTState).portfolioValues)

/-! ## Lemmas about the simulator -/

theorem sampleVar_nonneg (l : List ℚ) : 0 ≤ sampleVar l := by
  cases l with
  | nil => simp [sampleVar]
  | cons a as =>
    apply div_nonneg
    · apply List.sum_nonneg
      intro x hx
      simp only [List.mem_map] at hx
      obtain ⟨y, _, rfl⟩ := hx
      positivity
    · have h1 : (1 : ℚ) ≤ ((a :: as).length : ℚ) := by
        have : 1 ≤ (a :: as).length := by simp
        exact_mod_cast this
      linarith

theorem sampleStd_eq_zero_iff (l : List ℚ) : sampleStd l = 0 ↔ sampleVar l = 0 := by
  have h0 : (0 : ℝ) ≤ (sampleVar l : ℝ) := by exact_mod_cast sampleVar_nonneg l
  constructor
  · intro h
    have := (Real.sqrt_eq_zero h0).mp h
    exact_mod_cast this
  · intro h
    unfold sampleStd
    rw [h]
    simp

theorem btStep_portfolio_length (p : StrategyParams) (s : BTState) (bar : ℚ × ℚ) :
    (btStep p s bar).portfolioValues.length = s.portfolioValues.length + 1 := by
  simp only [btStep]
  split_ifs <;> simp

theorem btFold_portfolio_length (p : StrategyParams) : ∀ (bars : List (ℚ × ℚ)) (s : BTState),
    (bars.foldl (btStep p) s).portfolioValues.length = s.portfolioValues.length + bars.length := by
  intro bars
  induction bars with
  | nil => intro s; simp
  | cons b bs ih =>
    intro s
    rw [List.foldl_cons, ih (btStep p s b), btStep_portfolio_length]
    simp
    omega

theorem btFold_portfolio_ne_nil (p : StrategyParams) (bars : List (ℚ × ℚ)) (hne : bars ≠ []) :
    (bars.foldl (btStep p) initBTState).portfolioValues ≠ [] := by
  have hlen := btFold_portfolio_length p bars initBTState
  have hpos : 0 < bars.length := List.length_pos.mpr hne
  intro hcon
  rw [hcon] at hlen
  simp [initBTState] at hlen
  omega

/-! ## Claim theorems for the simulator -/

/-- C3: forced liquidation at the simulation boundary.  Whenever the state
machine is still Long after the bar loop, the ending capital returned by
`run_backtest` is the loop-end cash plus the proceeds of selling the whole
holding at the last close under the shared sell-side cost model
(`sellProceeds`: slippage reduction then proportional fee) — never
cash plus unrealized BTC value. -/
theorem forced_liquidation_at_boundary (p : StrategyParams) (bars : List (ℚ × ℚ))
    (hpos : (bars.foldl (btStep p) initBTState).inPosition = true) :
    (run_backtest p bars).1 =
      (bars.foldl (btStep p) initBTState).capital +
        sellProceeds (bars.foldl (btStep p) initBTState).btcAmount (lastClose bars) := by
  show run_backtest_capital p bars = _
  unfold run_backtest_capital liquidateFinal
  rw [hpos]
  simp

/-- Witness for C3: a single-bar run that opens a position on its only bar ends
with the forced-liquidation capital. -/
theorem forced_liquidation_witness :
    (run_backtest ⟨1/100, 1/100, 1/2, 1/2⟩ [(100, 9/10)]).1 =
      ([((100 : ℚ), (9/10 : ℚ))].foldl (btStep ⟨1/100, 1/100, 1/2, 1/2⟩) initBTState).capital +
        sellProceeds
          (([((100 : ℚ), (9/10 : ℚ))].foldl (btStep ⟨1/100, 1/100, 1/2, 1/2⟩) initBTState).btcAmount)
          (lastClose [((100 : ℚ), (9/10 : ℚ))]) :=
  forced_liquidation_at_boundary ⟨1/100, 1/100, 1/2, 1/2⟩ [(100, 9/10)]
    (by norm_num [btStep, initBTState])

/-- C4: degenerate Sharpe policy.  For every simulation run on a nonempty bar
series, if the derived per-bar percentage return series has zero sample
standard deviation or fewer than 2 points, the returned Sharpe is 0 (a value,
not an error); otherwise it is `mean/std * sqrt(365*24*60)`. -/
theorem sharpe_degenerate_policy (p : StrategyParams) (bars : List (ℚ × ℚ))
    (hne : bars ≠ []) :
    ((sampleStd (portfolioReturns p bars) = 0 ∨ (portfolioReturns p bars).length < 2) →
      (run_backtest p bars).2 = 0) ∧
    (¬ (sampleStd (portfolioReturns p bars) = 0 ∨ (portfolioReturns p bars).length < 2) →
      (run_backtest p bars).2 =
        ((rmean (portfolioReturns p bars) : ℚ) : ℝ) / sampleStd (portfolioReturns p bars)
          * Real.sqrt (365 * 24 * 60)) := by
  have hpv := btFold_portfolio_ne_nil p bars hne
  have h2 : (run_backtest p bars).2 = sharpeOfReturns (portfolioReturns p bars) := by
    show (if (bars.foldl (btStep p) initBTState).portfolioValues = [] then (-1 : ℝ)
      else sharpeOfReturns (pctChange (bars.foldl (btStep p) initBTState).portfolioValues)) = _
    rw [if_neg hpv]
    rfl
  have hiff := sampleStd_eq_zero_iff (portfolioReturns p bars)
  constructor
  · intro h
    rw [h2]
    unfold sharpeOfReturns
    rcases h with h | h
    · rw [if_pos (Or.inr (hiff.mp h))]
    · rw [if_pos (Or.inl h)]
  · intro h
    push_neg at h
    rw [h2]
    unfold sharpeOfReturns
    rw [if_neg]
    rintro (hc | hc)
    · exact absurd hc (by omega)
    · exact h.1 (hiff.mpr hc)

/-- Witness for C4: a one-bar run yields an empty return series (fewer than 2
points) and Sharpe 0. -/
theorem sharpe_degenerate_witness :
    (portfolioReturns ⟨1/100, 1/100, 1/2, 1/50⟩ [(100, 0)]).length < 2 ∧
    (run_backtest ⟨1/100, 1/100, 1/2, 1/50⟩ [(100, 0)]).2 = 0 := by
  have hlen : (portfolioReturns ⟨1/100, 1/100, 1/2, 1/50⟩ [(100, 0)]).length < 2 := by
    norm_num [portfolioReturns, btStep, initBTState, pctChange]
  exact ⟨hlen, (sharpe_degenerate_policy _ _ (by simp)).1 (Or.inr hlen)⟩

/-! ## Round-trip cost lemmas -/

theorem btStep_hold (p : StrategyParams) (price proba : ℚ) (s : BTState)
    (hpos : s.inPosition = true)
    (hbuy : s.buyPrice = price * (1 + SLIPPAGE_RATE))
    (hp : 0 < price)
    (hprofit : 0 < p.profit_threshold)
    (hstop : 1/2001 < p.stop_loss_threshold) :
    btStep p s (price, proba) =
      { s with portfolioValues := s.portfolioValues ++ [s.capital + s.btcAmount * price] } := by
  have hpne : price ≠ 0 := ne_of_gt hp
  have hbp : 0 < s.buyPrice := by
    rw [hbuy, SLIPPAGE_RATE]
    positivity
  have hpl : price / s.buyPrice - 1 = -(1/2001) := by
    rw [hbuy, SLIPPAGE_RATE]
    field_simp
    ring
  have hnot1 : ¬ (p.profit_threshold ≤ price / s.buyPrice - 1) := by
    rw [hpl]
    intro hc
    linarith
  have hnot2 : ¬ (price / s.buyPrice - 1 ≤ -p.stop_loss_threshold) := by
    rw [hpl]
    intro hc
    linarith
  simp [btStep, hpos, hbp, hnot1, hnot2]

theorem btFold_hold (p : StrategyParams) (price : ℚ)
    (hp : 0 < price) (hprofit : 0 < p.profit_threshold)
    (hstop : 1/2001 < p.stop_loss_threshold) :
    ∀ (rest : List (ℚ × ℚ)) (s : BTState), (∀ b ∈ rest, b.1 = price) →
      s.inPosition = true → s.buyPrice = price * (1 + SLIPPAGE_RATE) →
      (rest.foldl (btStep p) s).capital = s.capital ∧
      (rest.foldl (btStep p) s).btcAmount = s.btcAmount ∧
      (rest.foldl (btStep p) s).inPosition = true ∧
      (rest.foldl (btStep p) s).tradeCount = s.tradeCount := by
  intro rest
  induction rest with
  | nil => intro s _ h1 _; exact ⟨rfl, rfl, h1, rfl⟩
  | cons b bs ih =>
    intro s hall h1 h2
    have hb1 : b.1 = price := hall b (by simp)
    have hbeq : b = (price, b.2) := by
      rw [← hb1]
    have hstep : btStep p s b =
        { s with portfolioValues := s.portfolioValues ++ [s.capital + s.btcAmount * price] } := by
      rw [hbeq]
      exact btStep_hold p price b.2 s h1 h2 hp hprofit hstop
    rw [List.foldl_cons, hstep]
    exact ih _ (fun c hc => hall c (by simp [hc])) h1 h2

theorem lastClose_const (price : ℚ) : ∀ (rest : List (ℚ × ℚ)) (c : ℚ × ℚ),
    c.1 = price → (∀ b ∈ rest, b.1 = price) → lastClose (c :: rest) = price := by
  intro rest
  induction rest with
  | nil =>
    intro c h1 _
    simp [lastClose, h1]
  | cons d ds ih =>
    intro c h1 hall
    have h2 := ih d (hall d (by simp)) (fun b hb => hall b (by simp [hb]))
    simp only [lastClose, List.map_cons, List.getLast?_cons_cons] at h2 ⊢
    exact h2

/-- C8: round-trip cost strictness.  A simulation that opens exactly one
position on its first bar and holds it to the boundary, with all bars at the
same price, ends strictly below the starting capital of 100: with the positive
fee and slippage rates a round trip at an unchanged market price loses money.
The hypotheses state that the entry fires (probability above the threshold,
trade size above the $10 floor) and that neither exit threshold can trigger at
an unchanged price (the stop-loss must exceed the slippage-induced
`1/2001` mark-to-market loss). -/
theorem btStep_entry (p : StrategyParams) (price proba : ℚ)
    (hconv : p.prediction_confidence < proba)
    (hsize : 10 < 100 * (p.risk_per_trade_pct *
      (1/2 + (proba - p.prediction_confidence) / (1 - p.prediction_confidence)))) :
    btStep p initBTState (price, proba) =
      ⟨100 - (100 * (p.risk_per_trade_pct *
          (1/2 + (proba - p.prediction_confidence) / (1 - p.prediction_confidence)))
        + 100 * (p.risk_per_trade_pct *
          (1/2 + (proba - p.prediction_confidence) / (1 - p.prediction_confidence))) * FEE_RATE),
       100 * (p.risk_per_trade_pct *
          (1/2 + (proba - p.prediction_confidence) / (1 - p.prediction_confidence)))
         / (price * (1 + SLIPPAGE_RATE)),
       true, price * (1 + SLIPPAGE_RATE), 1, [100]⟩ := by
  norm_num [btStep, initBTState, hconv, hsize]

theorem round_trip_strictly_loses (p : StrategyParams) (price proba : ℚ)
    (rest : List (ℚ × ℚ))
    (hp : 0 < price)
    (hconv : p.prediction_confidence < proba)
    (hsize : 10 < 100 * (p.risk_per_trade_pct *
      (1/2 + (proba - p.prediction_confidence) / (1 - p.prediction_confidence))))
    (hprofit : 0 < p.profit_threshold)
    (hstop : 1/2001 < p.stop_loss_threshold)
    (hrest : ∀ b ∈ rest, b.1 = price) :
    run_backtest_capital p ((price, proba) :: rest) < 100 ∧
    (((price, proba) :: rest).foldl (btStep p) initBTState).tradeCount = 1 := by
  have hs1 := btStep_entry p price proba hconv hsize
  have hfold := btFold_hold p price hp hprofit hstop rest
    ⟨100 - (100 * (p.risk_per_trade_pct *
        (1/2 + (proba - p.prediction_confidence) / (1 - p.prediction_confidence)))
      + 100 * (p.risk_per_trade_pct *
        (1/2 + (proba - p.prediction_confidence) / (1 - p.prediction_confidence))) * FEE_RATE),
     100 * (p.risk_per_trade_pct *
        (1/2 + (proba - p.prediction_confidence) / (1 - p.prediction_confidence)))
       / (price * (1 + SLIPPAGE_RATE)),
     true, price * (1 + SLIPPAGE_RATE), 1, [100]⟩ hrest rfl rfl
  have hlast : lastClose ((price, proba) :: rest) = price :=
    lastClose_const price rest (price, proba) rfl hrest
  constructor
  · unfold run_backtest_capital liquidateFinal
    rw [List.foldl_cons, hs1]
    simp only [hfold.1, hfold.2.1, hfold.2.2.1, hlast]
    simp only [if_true]
    set t := 100 * (p.risk_per_trade_pct *
      (1/2 + (proba - p.prediction_confidence) / (1 - p.prediction_confidence))) with ht
    rw [sellProceeds, FEE_RATE, SLIPPAGE_RATE]
    have hpne : price ≠ 0 := ne_of_gt hp
    have hA : t / (price * (1 + 1/2000)) * (price * (1 - 1/2000)) * (1 - 1/1000)
        = t * (1997001/2001000) := by
      field_simp
      ring
    rw [hA]
    linarith
  · rw [List.foldl_cons, hs1, hfold.2.2.2]

/-- Witness for C8: a concrete two-bar flat-price round trip through the
forced liquidation ends below 100 with exactly one trade. -/
theorem round_trip_strictly_loses_witness :
    run_backtest_capital ⟨1/100, 1/100, 1/2, 1/2⟩ [(100, 9/10), (100, 0)] < 100 ∧
    (([((100 : ℚ), (9/10 : ℚ)), (100, 0)]).foldl (btStep ⟨1/100, 1/100, 1/2, 1/2⟩)
      initBTState).tradeCount = 1 :=
  round_trip_strictly_loses ⟨1/100, 1/100, 1/2, 1/2⟩ 100 (9/10) [(100, 0)]
    (by norm_num) (by norm_num) (by norm_num) (by norm_num) (by norm_num)
    (by intro b hb; simp at hb; rw [hb])

/-! ## Optimizer backtest and trial objective (src/optimizer.py) -/

/-- Transaction fee of the optimizer simulator (`self.TRADE_FEE`, line 20). -/
def TRADE_FEE : ℚ := 1/1000

/-- Portfolio simulation state of `_run_backtest_for_period` (lines 76-82). -/
structure OptBTState where
  capital : ℚ
  btcAmount : ℚ
  inPosition : Bool
  buyPrice : ℚ
  tradeCount : ℕ
  portfolioValues : List ℚ
  deriving DecidableEq

def optInitState : OptBTState := ⟨100, 0, false, 0, 0, []⟩

/-- One bar of `_run_backtest_for_period` (lines 100-120).  A bar carries
`(price, buy probability, sell probability)`.  All-in entry when flat, the
whole holding sold on take-profit, stop-loss or sell signal; both legs pay the
proportional fee with no slippage.  The portfolio value is appended after the
trading logic, unlike `run_backtest`. -/
def optStep (p : StrategyParams) (s : OptBTState) (bar : ℚ × ℚ × ℚ) : OptBTState :=
  let price := bar.1
  let buy_proba := bar.2.1
  let sell_proba := bar.2.2
  let s1 :=
    if s.inPosition then
      if p.profit_threshold ≤ price / s.buyPrice - 1 ∨
          price / s.buyPrice - 1 ≤ -p.stop_loss_threshold ∨
          p.prediction_confidence < sell_proba then
        { s with capital := s.capital + s.btcAmount * price * (1 - TRADE_FEE),
                 btcAmount := 0, inPosition := false, tradeCount := s.tradeCount + 1 }
      else s
    else if p.prediction_confidence < buy_proba then
      if 10 < s.capital then
        { s with btcAmount := s.capital / price * (1 - TRADE_FEE), capital := 0,
                 buyPrice := price, inPosition := true, tradeCount := s.tradeCount + 1 }
      else s
    else s
  { s1 with portfolioValues := s1.portfolioValues ++ [s1.capital + s1.btcAmount * price] }

/-- Final state of the `_run_backtest_for_period` bar loop. -/
def optFinalState (p : StrategyParams) (bars : List (ℚ × ℚ × ℚ)) : OptBTState :=
  bars.foldl (optStep p) optInitState

/-- Last price of the period (`test_prices.iloc[-1]`), 0 on an empty series. -/
def optLastPrice (bars : List (ℚ × ℚ × ℚ)) : ℚ := ((bars.map Prod.fst).getLast?).getD 0

/-- `_calculate_sharpe_ratio` (lines 67-72): 0 when the return series has
fewer than 2 points or zero variance (the `std == 0 or len < 2` guard), else
`mean/std * sqrt(365*1440)` — the annualization constant `365*1440` equals the
`365*24*60` used by `run_backtest`. -/
noncomputable def calculate_sharpe_ratio (returns : List ℚ) : ℝ :=
  if returns.length < 2 ∨ sampleVar returns = 0 then 0
  else ((rmean returns : ℚ) : ℝ) / sampleStd returns * Real.sqrt (365 * 1440)

/-- Triple returned by `_run_backtest_for_period` (lines 122-128): ending
capital with forced liquidation at fee-only cost, trade count, and Sharpe of
the per-bar portfolio series.  Feature preparation and model prediction are
external collaborators; the model's probability output is the input series
(the early `X_test_full.empty` exit returning `(100, 0, 0.0)` is not modelled). -/
noncomputable def run_backtest_for_period (p : StrategyParams)
    (bars : List (ℚ × ℚ × ℚ)) : ℚ × ℕ × ℝ :=
  let s := optFinalState p bars
  (if s.inPosition then s.capital + s.btcAmount * optLastPrice bars * (1 - TRADE_FEE)
   else s.capital,
   s.tradeCount,
   calculate_sharpe_ratio (pctChange s.portfolioValues))

/-- Score returned by `_objective` after successful training (lines 149-156):
the Sharpe ratio of the out-of-sample backtest.  The `-1.0` sentinel is
returned only when training fails. -/
noncomputable def objectiveScore (p : StrategyParams) (bars : List (ℚ × ℚ × ℚ)) : ℝ :=
  (run_backtest_for_period p bars).2.2

/-! ## Lemmas about zero-trade trials -/

theorem optStep_tradeCount_le (p : StrategyParams) (s : OptBTState) (bar : ℚ × ℚ × ℚ) :
    s.tradeCount ≤ (optStep p s bar).tradeCount := by
  simp only [optStep]
  split_ifs <;> simp

theorem optFold_tradeCount_le (p : StrategyParams) :
    ∀ (bars : List (ℚ × ℚ × ℚ)) (s : OptBTState),
      s.tradeCount ≤ (bars.foldl (optStep p) s).tradeCount := by
  intro bars
  induction bars with
  | nil => intro s; exact le_rfl
  | cons b bs ih =>
    intro s
    exact le_trans (optStep_tradeCount_le p s b) (ih (optStep p s b))

theorem optFold_flat (p : StrategyParams) : ∀ (bars : List (ℚ × ℚ × ℚ)) (pv : List ℚ),
    (bars.foldl (optStep p) ⟨100, 0, false, 0, 0, pv⟩).tradeCount = 0 →
    bars.foldl (optStep p) ⟨100, 0, false, 0, 0, pv⟩ =
      ⟨100, 0, false, 0, 0, pv ++ List.replicate bars.length 100⟩ := by
  intro bars
  induction bars with
  | nil => intro pv _; simp
  | cons b bs ih =>
    intro pv h0
    by_cases hb : p.prediction_confidence < b.2.1
    · exfalso
      have hstep : (optStep p ⟨100, 0, false, 0, 0, pv⟩ b).tradeCount = 1 := by
        norm_num [optStep, hb]
      have hmono := optFold_tradeCount_le p bs (optStep p ⟨100, 0, false, 0, 0, pv⟩ b)
      rw [List.foldl_cons] at h0
      omega
    · have hstep : optStep p ⟨100, 0, false, 0, 0, pv⟩ b = ⟨100, 0, false, 0, 0, pv ++ [100]⟩ := by
        norm_num [optStep, hb]
      rw [List.foldl_cons, hstep] at h0 ⊢
      rw [ih (pv ++ [100]) h0]
      simp [List.replicate_succ]

theorem pctChange_cons_cons (a b : ℚ) (rest : List ℚ) :
    pctChange (a :: b :: rest) = (b / a - 1) :: pctChange (b :: rest) := rfl

theorem pctChange_replicate_all_zero : ∀ (n : ℕ) (x : ℚ),
    x ∈ pctChange (List.replicate n (100 : ℚ)) → x = 0 := by
  intro n
  induction n with
  | zero => intro x hx; simp [pctChange] at hx
  | succ m ih =>
    intro x hx
    cases m with
    | zero => simp [pctChange, List.replicate_succ] at hx
    | succ k =>
      rw [List.replicate_succ, List.replicate_succ, pctChange_cons_cons] at hx
      rcases List.mem_cons.mp hx with h | h
      · rw [h]; norm_num
      · exact ih x (by rw [List.replicate_succ]; exact h)

theorem sampleVar_zero_of_all_zero (l : List ℚ) (h : ∀ x ∈ l, x = 0) : sampleVar l = 0 := by
  have hm : rmean l = 0 := by
    unfold rmean
    rw [List.sum_eq_zero h]
    simp
  have hnum : (l.map fun x => (x - rmean l) ^ 2).sum = 0 := by
    apply List.sum_eq_zero
    intro y hy
    simp only [List.mem_map] at hy
    obtain ⟨x, hx, rfl⟩ := hy
    rw [h x hx, hm]
    ring
  unfold sampleVar
  rw [hnum, zero_div]

/-! ## Claim theorems for the trial objective -/

/-- Counterexample for C6: a trial whose simulation executes exactly zero
trades and leaves capital flat at 100 receives objective score exactly 0 —
not a strictly negative penalty. -/
theorem zero_trade_penalty_counterexample :
    (run_backtest_for_period ⟨1/100, 1/100, 3/5, 1/50⟩
      [(100, 0, 0), (100, 0, 0), (100, 0, 0)]).2.1 = 0 ∧
    (run_backtest_for_period ⟨1/100, 1/100, 3/5, 1/50⟩
      [(100, 0, 0), (100, 0, 0), (100, 0, 0)]).1 = 100 ∧
    objectiveScore ⟨1/100, 1/100, 3/5, 1/50⟩ [(100, 0, 0), (100, 0, 0), (100, 0, 0)] = 0 ∧
    ¬ objectiveScore ⟨1/100, 1/100, 3/5, 1/50⟩ [(100, 0, 0), (100, 0, 0), (100, 0, 0)] < 0 := by
  have hfold : optFinalState ⟨1/100, 1/100, 3/5, 1/50⟩
      [(100, 0, 0), (100, 0, 0), (100, 0, 0)] = ⟨100, 0, false, 0, 0, [100, 100, 100]⟩ := by
    norm_num [optFinalState, optInitState, optStep]
  have hpct : pctChange [(100 : ℚ), 100, 100] = [0, 0] := by
    norm_num [pctChange]
  have hvar : sampleVar [(0 : ℚ), 0] = 0 := by
    norm_num [sampleVar, rmean]
  have hsh : calculate_sharpe_ratio [(0 : ℚ), 0] = 0 := by
    unfold calculate_sharpe_ratio
    rw [if_pos (Or.inr hvar)]
  refine ⟨?_, ?_, ?_, ?_⟩
  · simp only [run_backtest_for_period, hfold]
  · simp only [run_backtest_for_period, hfold]
    norm_num
  · simp only [objectiveScore, run_backtest_for_period, hfold]
    rw [hpct, hsh]
  · simp only [objectiveScore, run_backtest_for_period, hfold]
    rw [hpct, hsh]
    norm_num

/-- C6 amended: a trial whose simulation executes exactly zero trades leaves
capital flat at 100 and receives objective score 0 from the degenerate-Sharpe
branch — zero, not the small negative penalty the claim requires, so it is
indistinguishable from a zero-variance break-even trial (the `-1.0` sentinel
applies only to failed training, not to zero-trade simulations). -/
theorem zero_trade_trial_scores_zero (p : StrategyParams) (bars : List (ℚ × ℚ × ℚ))
    (h0 : (optFinalState p bars).tradeCount = 0) :
    (run_backtest_for_period p bars).1 = 100 ∧ objectiveScore p bars = 0 := by
  have h0' : (bars.foldl (optStep p) ⟨100, 0, false, 0, 0, []⟩).tradeCount = 0 := h0
  have hflat := optFold_flat p bars [] h0'
  have hflat' : optFinalState p bars = ⟨100, 0, false, 0, 0, List.replicate bars.length 100⟩ := by
    unfold optFinalState optInitState
    rw [hflat]
    simp
  have hvar : sampleVar (pctChange (List.replicate bars.length (100 : ℚ))) = 0 :=
    sampleVar_zero_of_all_zero _ (pctChange_replicate_all_zero bars.length)
  constructor
  · simp [run_backtest_for_period, hflat']
  · have hsh : calculate_sharpe_ratio (pctChange (List.replicate bars.length (100 : ℚ))) = 0 := by
      unfold calculate_sharpe_ratio
      rw [if_pos (Or.inr hvar)]
    simp [objectiveScore, run_backtest_for_period, hflat', hsh]

/-- Witness for the amended C6: a one-bar period with no entry signal executes
zero trades, keeps capital at 100 and scores 0. -/
theorem zero_trade_trial_witness :
    (run_backtest_for_period ⟨1/100, 1/100, 3/5, 1/50⟩ [(50, 0, 0)]).1 = 100 ∧
    objectiveScore ⟨1/100, 1/100, 3/5, 1/50⟩ [(50, 0, 0)] = 0 :=
  zero_trade_trial_scores_zero ⟨1/100, 1/100, 3/5, 1/50⟩ [(50, 0, 0)]
    (by norm_num [optFinalState, optInitState, optStep])

end GcsBot
